import Mathlib

/-!
Shallow embedding of the HubSpot MCP HTTP bridge (`src/index.js`, with the
stub variant in `src/unnamed/part_000`): JSON values with JavaScript
truthiness, the response-line correlator, the TTL cache, the HTTP route
dispatcher, and an event-step semantics for the pending-request map.
-/

/-- JSON values as produced by `JSON.parse`. Objects keep their fields in
insertion order, as JavaScript objects do; numbers are modelled as integers
(the ids and all values the claims touch are integral). -/
inductive Json where
  | null
  | bool (b : Bool)
  | num (n : Int)
  | str (s : String)
  | arr (elems : List Json)
  | obj (fields : List (String × Json))

namespace Json

/-- JavaScript truthiness of a value: `null`, `false`, `0` and `""` are
falsy; objects and arrays are always truthy. -/
def truthy : Json → Bool
  | .null => false
  | .bool b => b
  | .num n => n != 0
  | .str s => !s.isEmpty
  | .arr _ => true
  | .obj _ => true

/-- Property access `j.k` as JavaScript performs it on a parsed JSON value:
a missing field, or access on a non-object, yields `undefined`, which we
conflate with `null` (both are falsy and both read as absent). -/
def getField (j : Json) (k : String) : Json :=
  match j with
  | .obj fields =>
      match fields.find? (fun p => p.1 = k) with
      | some p => p.2
      | none => .null
  | _ => .null

/-- Whether an object payload carries a field named `k` at all
(present even when its value is falsy). -/
def hasField (j : Json) (k : String) : Bool :=
  match j with
  | .obj fields => fields.any (fun p => p.1 = k)
  | _ => false

/-- Escape of one character inside a JSON string literal. -/
def escapeChar (c : Char) : String :=
  if c = '"' then "\\\""
  else if c = '\\' then "\\\\"
  else if c = '\n' then "\\n"
  else String.singleton c

/-- Escape of a string body for `JSON.stringify`. -/
def escape (s : String) : String :=
  String.join (s.toList.map escapeChar)

mutual

/-- `JSON.stringify`: deterministic serialization that emits object fields
in their insertion order (JavaScript does not sort keys). -/
def stringify : Json → String
  | .null => "null"
  | .bool true => "true"
  | .bool false => "false"
  | .num n => toString n
  | .str s => "\"" ++ escape s ++ "\""
  | .arr es => "[" ++ stringifyArr es ++ "]"
  | .obj fs => "\x7b" ++ stringifyObj fs ++ "\x7d"

/-- Comma-separated serialization of array elements. -/
def stringifyArr : List Json → String
  | [] => ""
  | [j] => stringify j
  | j :: js => stringify j ++ "," ++ stringifyArr js

/-- Comma-separated serialization of object fields, in list order. -/
def stringifyObj : List (String × Json) → String
  | [] => ""
  | [(k, v)] => "\"" ++ escape k ++ "\":" ++ stringify v
  | (k, v) :: fs => "\"" ++ escape k ++ "\":" ++ stringify v ++ "," ++ stringifyObj fs

end

/-- Lexicographic comparison of character lists by code point. -/
def charListLt : List Char → List Char → Bool
  | [], [] => false
  | [], _ :: _ => true
  | _ :: _, [] => false
  | c :: cs, d :: ds =>
      if c.val < d.val then true
      else if d.val < c.val then false
      else charListLt cs ds

/-- Lexicographic comparison of strings by code point. -/
def strLt (a b : String) : Bool := charListLt a.data b.data

/-- Insert a field into a key-sorted field list (ordering by key). -/
def insertField (p : String × Json) : List (String × Json) → List (String × Json)
  | [] => [p]
  | q :: qs => if strLt p.1 q.1 then p :: q :: qs else q :: insertField p qs

/-- Sort a field list by key. -/
def sortFields : List (String × Json) → List (String × Json)
  | [] => []
  | p :: ps => insertField p (sortFields ps)

mutual

/-- Canonical form of a JSON value: object keys sorted recursively. Two
values are "equal as JSON values" (same keys and values, irrespective of
insertion order) exactly when their canonical forms coincide. -/
def canon : Json → Json
  | .null => .null
  | .bool b => .bool b
  | .num n => .num n
  | .str s => .str s
  | .arr es => .arr (canonArr es)
  | .obj fs => .obj (sortFields (canonFields fs))

/-- Canonicalize every element of an array. -/
def canonArr : List Json → List Json
  | [] => []
  | j :: js => canon j :: canonArr js

/-- Canonicalize every field value of an object. -/
def canonFields : List (String × Json) → List (String × Json)
  | [] => []
  | (k, v) :: fs => (k, canon v) :: canonFields fs

end

end Json

/-! ## Request correlator: response-line handling (src/index.js lines 70-109) -/

/-- Result delivered to one pending call: `resolve` with a value or
`reject` with an error message. -/
inductive Resolution where
  | success (v : Json)
  | failure (msg : String)

/-- Observable event emitted while the bridge runs: a pending entry was
registered under an id, or the call with that id was resolved. -/
inductive Outcome where
  | registered (id : Nat)
  | resolved (id : Nat) (r : Resolution)

/-- String coercion performed by `new Error(x)` on its argument, for the
message position (`response.error.message`); nested object coercion is
approximated by the JavaScript `[object Object]` form. -/
def jsToString : Json → String
  | .null => "null"
  | .bool true => "true"
  | .bool false => "false"
  | .num n => toString n
  | .str s => s
  | .arr _ => ""
  | .obj _ => "[object Object]"

/-- Message attached to a rejected call when the payload's `error` field is
truthy: `response.error.message || 'MCP server error'` (src/index.js line 97). -/
def errMsg (e : Json) : String :=
  if (e.getField "message").truthy then jsToString (e.getField "message")
  else "MCP server error"

/-- Matching of a response's `id` value against the keys of the pending map
(`response.id && pendingRequests.has(response.id)`, line 92): the id must be
truthy, and the pending keys are the integers handed out by the counter, so
only an integral JSON number can match. -/
def matchId (idVal : Json) (pending : List Nat) : Option Nat :=
  if idVal.truthy then
    match idVal with
    | .num n => if 0 ≤ n ∧ n.toNat ∈ pending then some n.toNat else none
    | _ => none
  else none

/-- Resolution computed from a matched response payload (lines 96-100):
a truthy `error` field rejects with its message; otherwise the call
resolves with `response.result || response`. -/
def resolutionFor (resp : Json) : Resolution :=
  if (resp.getField "error").truthy then
    .failure (errMsg (resp.getField "error"))
  else
    .success (if (resp.getField "result").truthy then resp.getField "result" else resp)

/-- Effect of one output line (already parsed as JSON) on the pending map
(lines 92-101): when the id matches a pending entry the entry is deleted
first and the computed resolution is delivered; otherwise nothing happens. -/
def handleLinePending (resp : Json) (pending : List Nat) :
    List Nat × Option (Nat × Resolution) :=
  match matchId (resp.getField "id") pending with
  | some n => (pending.erase n, some (n, resolutionFor resp))
  | none => (pending, none)

/-- Readiness handshake detection (line 77): `response.id === 'init' &&
response.result`. -/
def isInitResponse (resp : Json) : Bool :=
  (match resp.getField "id" with
   | .str s => s = "init"
   | _ => false) && (resp.getField "result").truthy

/-! ## Bridge state and event-step semantics

The pending map is mutated only on the single event loop, so the run is a
sequence of atomic steps; entries carry resolve/reject closures, which the
model represents by the id alone, and `timers` holds the ids whose
10-second timeout is still armed. -/

/-- Mutable module-level state of src/index.js lines 33-41 that the claims
touch: the pending-request keys, the id counter, the armed per-request
timers, and the process flags. -/
structure BridgeState where
  pending : List Nat
  counter : Nat
  timers : List Nat
  procAlive : Bool
  mcpReady : Bool
  mcpInit : Bool

/-- Atomic events of the event loop relevant to the correlator: a call
reaching the send phase (write succeeds), a call whose `stdin.write` throws,
an output line arriving, a per-request timeout firing, and the child
process exiting. -/
inductive Event where
  | send
  | sendFail (msg : String)
  | line (resp : Json)
  | timeoutFire (id : Nat)
  | procExit

/-- One atomic step of the bridge (src/index.js lines 92-101, 127-138,
190-244), returning the new state and the outcomes it emits. `send`
allocates `requestIdCounter++`, registers the entry and arms the timer;
`sendFail` additionally runs the catch block (clear timeout, delete entry,
reject); `line` runs the stdout handler; `timeoutFire` runs the timeout
callback, a no-op when the entry is gone; `procExit` runs the exit handler. -/
def step (s : BridgeState) : Event → BridgeState × List Outcome
  | .send =>
      let id := s.counter
      ({ s with
          counter := id + 1
          pending := s.pending ++ [id]
          timers := s.timers ++ [id] },
        [.registered id])
  | .sendFail m =>
      let id := s.counter
      ({ s with
          counter := id + 1
          pending := (s.pending ++ [id]).erase id
          timers := (s.timers ++ [id]).erase id },
        [.registered id,
         .resolved id (.failure ("Failed to send MCP request: " ++ m))])
  | .line resp =>
      let s1 := if isInitResponse resp then { s with mcpReady := true, mcpInit := true } else s
      match handleLinePending resp s1.pending with
      | (p, some nr) =>
          ({ s1 with pending := p, timers := s1.timers.erase nr.1 },
            [.resolved nr.1 nr.2])
      | (_, none) => (s1, [])
  | .timeoutFire id =>
      if id ∈ s.pending then
        ({ s with pending := s.pending.erase id, timers := s.timers.erase id },
          [.resolved id (.failure "MCP request timeout")])
      else (s, [])
  | .procExit =>
      ({ s with
          pending := []
          timers := s.timers.filter (fun t => t ∉ s.pending)
          procAlive := false
          mcpReady := false
          mcpInit := false },
        s.pending.map (fun i => .resolved i (.failure "MCP server process exited")))

/-- Run of a sequence of events from a state, accumulating outcomes. -/
def run (s : BridgeState) : List Event → BridgeState × List Outcome
  | [] => (s, [])
  | e :: es =>
      let p := step s e
      let q := run p.1 es
      (q.1, p.2 ++ q.2)

/-- State at module load: empty pending map, counter 1, no process. -/
def initState : BridgeState :=
  { pending := []
    counter := 1
    timers := []
    procAlive := false
    mcpReady := false
    mcpInit := false }

/-- Guarded spawn of src/index.js lines 44-48 (`initializeMCPServer`):
a no-op while a process handle is tracked, otherwise a fresh spawn.
Returns whether a new process was spawned. -/
def initMCPServer (s : BridgeState) : BridgeState × Bool :=
  if s.procAlive then (s, false) else ({ s with procAlive := true }, true)

/-- Number of resolutions delivered to id `id` in an outcome list. -/
def resCount (outs : List Outcome) (id : Nat) : Nat :=
  outs.countP (fun o => match o with | .resolved i _ => i == id | _ => false)

/-- Number of registrations of id `id` in an outcome list. -/
def regCount (outs : List Outcome) (id : Nat) : Nat :=
  outs.countP (fun o => match o with | .registered i => i == id | _ => false)

/-- Ids registered in an outcome list, in order. -/
def registeredIds (outs : List Outcome) : List Nat :=
  outs.filterMap (fun o => match o with | .registered i => some i | _ => none)

/-! ## Response cache (src/index.js lines 39-41, 163-171, 216-234) -/

/-- Cached value with its storage time (`cache.set(cacheKey, {data, timestamp})`). -/
structure CacheEntry where
  data : Json
  timestamp : Nat

/-- Fixed cache expiry: `5 * 60 * 1000` milliseconds. -/
def CACHE_TTL : Nat := 5 * 60 * 1000

/-- Cache key construction (line 164): `method + ":" + JSON.stringify(params)`. -/
def cacheKey (method : String) (params : Json) : String :=
  method ++ ":" ++ Json.stringify params

/-- Lookup in the cache map (`cache.get`). -/
def cacheLookup (cache : List (String × CacheEntry)) (key : String) : Option CacheEntry :=
  (cache.find? (fun p => p.1 = key)).map (fun p => p.2)

/-- Overwrite-or-insert in the cache map (`cache.set`). -/
def cacheSet (cache : List (String × CacheEntry)) (key : String) (e : CacheEntry) :
    List (String × CacheEntry) :=
  (key, e) :: cache.filter (fun p => p.1 ≠ key)

/-- How one `callMCPServer` invocation concluded: served from cache with no
child round trip, or via a child round trip that succeeded or failed. -/
inductive CallResult where
  | cached (v : Json)
  | roundTripSuccess (v : Json)
  | roundTripFailure (msg : String)

/-- Round-trip phase of `callMCPServer` once the cache misses: the child
round trip runs, and only a successful truthy result is stored back (the
wrapped resolve's `if (result)` guard, lines 216-234); a failed round trip
stores nothing. -/
def doRoundTrip (cache : List (String × CacheEntry)) (key : String) (now : Nat)
    (transport : Except String Json) : List (String × CacheEntry) × CallResult :=
  match transport with
  | .ok r =>
      (if r.truthy then cacheSet cache key { data := r, timestamp := now } else cache,
        .roundTripSuccess r)
  | .error m => (cache, .roundTripFailure m)

/-- Cache behaviour of one `callMCPServer(method, params)` invocation
(src/index.js lines 163-171 and 216-234). `now` is `Date.now()` at the call,
`transport` abstracts the child-process round trip's eventual outcome. A
fresh cached entry (age strictly below `CACHE_TTL`) is returned with no
round trip; otherwise the round trip runs. -/
def callViaCache (cache : List (String × CacheEntry)) (method : String) (params : Json)
    (now : Nat) (transport : Except String Json) :
    List (String × CacheEntry) × CallResult :=
  match cacheLookup cache (cacheKey method params) with
  | some e =>
      if now - e.timestamp < CACHE_TTL then (cache, .cached e.data)
      else doRoundTrip cache (cacheKey method params) now transport
  | none => doRoundTrip cache (cacheKey method params) now transport

/-! ## HTTP front door (src/index.js lines 251-412) -/

/-- CORS headers set for every non-health route (lines 283-285). -/
def corsHeaders : List (String × String) :=
  [("Access-Control-Allow-Origin", "*"),
   ("Access-Control-Allow-Methods", "POST, GET, OPTIONS"),
   ("Access-Control-Allow-Headers", "Content-Type")]

/-- HTTP response as the handler shapes it: status code, content type,
extra headers (the CORS ones when set), body. -/
structure HttpResponse where
  status : Nat
  contentType : String
  headers : List (String × String)
  body : String

/-- Inputs to one dispatch of the request handler beyond method and URL:
the child-process state, the dynamic `/status` snapshot, the outcome of the
correlator call if the route makes one, and the parsed POST body (`none`
when `JSON.parse` throws, with the exception's message). -/
structure Ctx where
  child : BridgeState
  statusBody : String
  apiCorr : Except String Json
  body : Option Json
  parseErrMsg : String

/-- Static capability listing returned by `GET /api` (lines 328-345). -/
def apiInfo : Json :=
  .obj [("name", .str "HubSpot MCP Server Bridge"),
        ("version", .str "1.0.0"),
        ("endpoints", .obj
          [("health", .str "GET /health"),
           ("status", .str "GET /status"),
           ("api", .str "GET /api"),
           ("tools", .str "GET /api/tools"),
           ("call", .str "POST /api/call")]),
        ("description", .str "HTTP bridge for HubSpot MCP Server")]

/-- Body of an error-shaped JSON response: `JSON.stringify({error: message})`. -/
def errorBody (msg : String) : String :=
  Json.stringify (.obj [("error", .str msg)])

/-- Route dispatch of the HTTP handler (lines 251-412), in the code's branch
order: the health branch first (any method, before the CORS headers are
set), then CORS headers, the OPTIONS branch, `/status`, `/api`,
`/api/tools`, `/api/call`, and the 404 fallthrough. -/
def handleRequest (method url : String) (ctx : Ctx) : HttpResponse :=
  if url = "/" ∨ url = "/health" ∨ url = "/healthz" then
    { status := 200, contentType := "text/plain", headers := [], body := "OK" }
  else if method = "OPTIONS" then
    { status := 200, contentType := "", headers := corsHeaders, body := "" }
  else if method = "GET" ∧ url = "/status" then
    { status := 200, contentType := "application/json", headers := corsHeaders,
      body := ctx.statusBody }
  else if method = "GET" ∧ url = "/api" then
    { status := 200, contentType := "application/json", headers := corsHeaders,
      body := Json.stringify apiInfo }
  else if method = "GET" ∧ url = "/api/tools" then
    match ctx.apiCorr with
    | .ok tools =>
        { status := 200, contentType := "application/json", headers := corsHeaders,
          body := Json.stringify tools }
    | .error msg =>
        { status := 500, contentType := "application/json", headers := corsHeaders,
          body := errorBody msg }
  else if method = "POST" ∧ url = "/api/call" then
    match ctx.body with
    | some _ =>
        match ctx.apiCorr with
        | .ok result =>
            { status := 200, contentType := "application/json", headers := corsHeaders,
              body := Json.stringify result }
        | .error msg =>
            { status := 500, contentType := "application/json", headers := corsHeaders,
              body := errorBody msg }
    | none =>
        { status := 400, contentType := "application/json", headers := corsHeaders,
          body := errorBody (if ctx.parseErrMsg.isEmpty then "Invalid request"
                             else ctx.parseErrMsg) }
  else
    { status := 404, contentType := "application/json", headers := corsHeaders,
      body := Json.stringify (.obj [("error", .str "Not found"),
                                    ("path", .str url),
                                    ("method", .str method)]) }

/-! ## Sample dispatch contexts used by witnesses -/

/-- Context with no child process, a failed correlator outcome and an
unparseable POST body. -/
def ctxA : Ctx :=
  { child := initState
    statusBody := ""
    apiCorr := Except.error "MCP request timeout"
    body := none
    parseErrMsg := "Unexpected token" }

/-- Context with a ready child process, a successful correlator outcome and
a parsed POST body. -/
def ctxB : Ctx :=
  { child := { initState with procAlive := true, mcpReady := true, mcpInit := true }
    statusBody := "up"
    apiCorr := Except.ok (Json.str "ok")
    body := some (Json.obj [])
    parseErrMsg := "" }

/-- Context with a parsed POST body whose correlator call fails. -/
def ctxC : Ctx :=
  { child := initState
    statusBody := ""
    apiCorr := Except.error "MCP request timeout"
    body := some (Json.obj [])
    parseErrMsg := "" }

/-- Reduction of the handler on `POST /api/call`: body parse decides the
branch, then the correlator outcome. -/
lemma handleRequest_post_api_call (ctx : Ctx) :
    handleRequest "POST" "/api/call" ctx =
      match ctx.body with
      | some _ =>
          match ctx.apiCorr with
          | .ok result =>
              { status := 200, contentType := "application/json", headers := corsHeaders,
                body := Json.stringify result }
          | .error msg =>
              { status := 500, contentType := "application/json", headers := corsHeaders,
                body := errorBody msg }
      | none =>
          { status := 400, contentType := "application/json", headers := corsHeaders,
            body := errorBody (if ctx.parseErrMsg.isEmpty then "Invalid request"
                               else ctx.parseErrMsg) } := rfl

/-- Reduction of the handler on `GET /api/tools`. -/
lemma handleRequest_get_api_tools (ctx : Ctx) :
    handleRequest "GET" "/api/tools" ctx =
      match ctx.apiCorr with
      | .ok tools =>
          { status := 200, contentType := "application/json", headers := corsHeaders,
            body := Json.stringify tools }
      | .error msg =>
          { status := 500, contentType := "application/json", headers := corsHeaders,
            body := errorBody msg } := rfl

/-- C3: every request whose URL is exactly "/", "/health" or "/healthz" gets
an immediate 200 response with body "OK", and the response is identical for
every child-process state and correlator outcome: the health branch reads
nothing beyond the URL. -/
theorem c3_health_routes_immediate_and_state_independent
    (method url : String) (ctx ctx' : Ctx)
    (h : url = "/" ∨ url = "/health" ∨ url = "/healthz") :
    handleRequest method url ctx =
      { status := 200, contentType := "text/plain", headers := [], body := "OK" } ∧
    handleRequest method url ctx = handleRequest method url ctx' := by
  unfold handleRequest
  rw [if_pos h, if_pos h]
  exact ⟨rfl, rfl⟩

/-- Witness for C3: the "/health" URL with a never-started child process and
with a ready one produce the same fixed 200 "OK" response. -/
theorem c3_witness :
    handleRequest "GET" "/health" ctxA =
      { status := 200, contentType := "text/plain", headers := [], body := "OK" } ∧
    handleRequest "GET" "/health" ctxA = handleRequest "GET" "/health" ctxB :=
  c3_health_routes_immediate_and_state_independent "GET" "/health" ctxA ctxB
    (Or.inr (Or.inl rfl))

/-- C7: on `POST /api/call` an unparseable body is answered 400 with a JSON
body carrying an `error` field; a parsed body whose correlator call fails is
answered 500 with `{error: message}`; `GET /api/tools` shapes a correlator
failure the same way. -/
theorem c7_api_error_shaping (ctx : Ctx) (msg : String) :
    (ctx.body = none →
      handleRequest "POST" "/api/call" ctx =
        { status := 400, contentType := "application/json", headers := corsHeaders,
          body := errorBody (if ctx.parseErrMsg.isEmpty then "Invalid request"
                             else ctx.parseErrMsg) }) ∧
    ((∃ req, ctx.body = some req) → ctx.apiCorr = .error msg →
      handleRequest "POST" "/api/call" ctx =
        { status := 500, contentType := "application/json", headers := corsHeaders,
          body := errorBody msg }) ∧
    (ctx.apiCorr = .error msg →
      handleRequest "GET" "/api/tools" ctx =
        { status := 500, contentType := "application/json", headers := corsHeaders,
          body := errorBody msg }) := by
  refine ⟨?_, ?_, ?_⟩
  · intro h
    rw [handleRequest_post_api_call, h]
  · rintro ⟨req, hreq⟩ hcorr
    rw [handleRequest_post_api_call, hreq, hcorr]
  · intro hcorr
    rw [handleRequest_get_api_tools, hcorr]

/-- Witness for C7: concrete malformed-body and failing-correlator contexts. -/
theorem c7_witness :
    handleRequest "POST" "/api/call" ctxA =
      { status := 400, contentType := "application/json", headers := corsHeaders,
        body := errorBody "Unexpected token" } ∧
    handleRequest "POST" "/api/call" ctxC =
      { status := 500, contentType := "application/json", headers := corsHeaders,
        body := errorBody "MCP request timeout" } ∧
    handleRequest "GET" "/api/tools" ctxA =
      { status := 500, contentType := "application/json", headers := corsHeaders,
        body := errorBody "MCP request timeout" } :=
  ⟨(c7_api_error_shaping ctxA "MCP request timeout").1 rfl,
   (c7_api_error_shaping ctxC "MCP request timeout").2.1 ⟨Json.obj [], rfl⟩ rfl,
   (c7_api_error_shaping ctxA "MCP request timeout").2.2 rfl⟩

/-- C8 counterexample: an OPTIONS request to "/" is captured by the health
branch, which runs before the CORS headers are set: the response is the
plain 200 "OK" with an empty header list, not a preflight response carrying
the Access-Control headers. -/
theorem c8_counterexample :
    (handleRequest "OPTIONS" "/" ctxA).status = 200 ∧
    (handleRequest "OPTIONS" "/" ctxA).headers = [] ∧
    ("Access-Control-Allow-Origin", "*") ∉ (handleRequest "OPTIONS" "/" ctxA).headers ∧
    (handleRequest "OPTIONS" "/" ctxA).body = "OK" := by
  refine ⟨rfl, rfl, ?_, rfl⟩
  rw [show (handleRequest "OPTIONS" "/" ctxA).headers = [] from rfl]
  exact List.not_mem_nil _

/-- C8 amended: an OPTIONS request to any URL other than "/", "/health" and
"/healthz" receives the permissive preflight response: status 200 carrying
the three Access-Control headers; OPTIONS on those three URLs is answered by
the health branch instead. -/
theorem c8_options_preflight_amended (url : String) (ctx : Ctx)
    (h : ¬(url = "/" ∨ url = "/health" ∨ url = "/healthz")) :
    handleRequest "OPTIONS" url ctx =
      { status := 200, contentType := "", headers := corsHeaders, body := "" } ∧
    ("Access-Control-Allow-Origin", "*") ∈ corsHeaders ∧
    ("Access-Control-Allow-Methods", "POST, GET, OPTIONS") ∈ corsHeaders ∧
    ("Access-Control-Allow-Headers", "Content-Type") ∈ corsHeaders := by
  refine ⟨?_, by simp [corsHeaders], by simp [corsHeaders], by simp [corsHeaders]⟩
  unfold handleRequest
  rw [if_neg h, if_pos rfl]

/-- Witness for the amended C8 at the "/api/call" URL. -/
theorem c8_witness :
    handleRequest "OPTIONS" "/api/call" ctxA =
      { status := 200, contentType := "", headers := corsHeaders, body := "" } ∧
    ("Access-Control-Allow-Origin", "*") ∈ corsHeaders ∧
    ("Access-Control-Allow-Methods", "POST, GET, OPTIONS") ∈ corsHeaders ∧
    ("Access-Control-Allow-Headers", "Content-Type") ∈ corsHeaders :=
  c8_options_preflight_amended "/api/call" ctxA (by decide)

/-- Left cancellation for string concatenation. -/
lemma string_append_left_cancel {a b c : String} (h : a ++ b = a ++ c) : b = c := by
  have h2 : (a ++ b).data = (a ++ c).data := by rw [h]
  simp only [String.data_append] at h2
  exact String.ext (List.append_cancel_left h2)

/-- Parameters `{a: 1, b: 2}` inserted in alphabetical order. -/
def paramsAB : Json := .obj [("a", .num 1), ("b", .num 2)]

/-- The same parameters with the keys inserted in the opposite order. -/
def paramsBA : Json := .obj [("b", .num 2), ("a", .num 1)]

/-- C9 counterexample: `paramsAB` and `paramsBA` are equal as JSON values
(identical canonical forms) yet their cache keys differ, because
`JSON.stringify` follows key insertion order and is not canonical. -/
theorem c9_counterexample :
    Json.canon paramsAB = Json.canon paramsBA ∧
    cacheKey "tools/call" paramsAB ≠ cacheKey "tools/call" paramsBA := by
  refine ⟨rfl, ?_⟩
  decide

/-- C9 amended: the cache key is the deterministic string
`method ++ ":" ++ JSON.stringify(params)`: for a fixed method, two parameter
values produce the same key exactly when their serializations coincide, and
the serialization follows key insertion order rather than a canonical order. -/
theorem c9_cacheKey_deterministic (m : String) (p1 p2 : Json) :
    cacheKey m p1 = cacheKey m p2 ↔ Json.stringify p1 = Json.stringify p2 := by
  constructor
  · intro h
    unfold cacheKey at h
    exact string_append_left_cancel h
  · intro h
    unfold cacheKey
    rw [h]

/-- Witness for the amended C9 on concrete equal-serialization parameters. -/
theorem c9_witness :
    cacheKey "tools/list" (Json.obj [("limit", Json.num 10)]) =
      cacheKey "tools/list" (Json.obj [("limit", Json.num 10)]) :=
  (c9_cacheKey_deterministic "tools/list" (Json.obj [("limit", Json.num 10)])
    (Json.obj [("limit", Json.num 10)])).mpr rfl

/-! ## Line-handler claims (C4) -/

/-- Response whose `result` field is present but falsy (`0`). -/
def respFalsyResult : Json := .obj [("id", .num 1), ("result", .num 0)]

/-- Response that carries an `error` field whose value is `null`, together
with a `result` field. -/
def respNullError : Json := .obj [("id", .num 1), ("error", .null), ("result", .num 7)]

/-- C4 counterexample: the handler tests truthiness, not field presence.
With `{id: 1, result: 0}` a distinct `result` field is present, yet the call
succeeds with the whole payload, not with the field's value `0`; with
`{id: 1, error: null, result: 7}` the payload carries an `error` field, yet
the call succeeds with `7` instead of failing. -/
theorem c4_counterexample :
    (respFalsyResult.hasField "result" = true ∧
      handleLinePending respFalsyResult [1] = ([], some (1, .success respFalsyResult)) ∧
      respFalsyResult ≠ respFalsyResult.getField "result") ∧
    (respNullError.hasField "error" = true ∧
      handleLinePending respNullError [1] = ([], some (1, .success (.num 7)))) := by
  refine ⟨⟨rfl, rfl, ?_⟩, rfl, rfl⟩
  intro h
  exact Json.noConfusion h

/-- C4 amended: for every parsed line whose id matches a pending entry, the
entry is removed and exactly one resolution is computed: a truthy `error`
field rejects the call with the error's `message` field when that is truthy
(the fixed "MCP server error" text otherwise); with no truthy `error` field
the call resolves with the `result` field when truthy, and with the whole
payload when the `result` field is absent or falsy. -/
theorem c4_line_resolution_amended (resp : Json) (pending : List Nat) (n : Nat)
    (hmatch : matchId (resp.getField "id") pending = some n) :
    handleLinePending resp pending = (pending.erase n, some (n, resolutionFor resp)) ∧
    ((resp.getField "error").truthy = true →
      resolutionFor resp = .failure (errMsg (resp.getField "error"))) ∧
    (∀ m, (resp.getField "error").getField "message" = .str m →
      (Json.str m).truthy = true →
      errMsg (resp.getField "error") = m) ∧
    ((resp.getField "error").getField "message" = .null →
      errMsg (resp.getField "error") = "MCP server error") ∧
    ((resp.getField "error").truthy = false →
      (resp.getField "result").truthy = true →
      resolutionFor resp = .success (resp.getField "result")) ∧
    ((resp.getField "error").truthy = false →
      (resp.getField "result").truthy = false →
      resolutionFor resp = .success resp) := by
  refine ⟨?_, ?_, ?_, ?_, ?_, ?_⟩
  · unfold handleLinePending
    rw [hmatch]
  · intro he
    unfold resolutionFor
    rw [if_pos he]
  · intro m hm ht
    unfold errMsg
    rw [hm, if_pos ht]
    rfl
  · intro hm
    unfold errMsg
    rw [hm]
    rfl
  · intro he hr
    unfold resolutionFor
    rw [if_neg (by simp [he]), if_pos hr]
  · intro he hr
    unfold resolutionFor
    rw [if_neg (by simp [he]), if_neg (by simp [hr])]

/-- Error response with a truthy string message, for the C4 witness. -/
def respErr : Json := .obj [("id", .num 2), ("error", .obj [("message", .str "boom")])]

/-- Witness for the amended C4: a concrete matched error response removes
the entry and rejects with its message. -/
theorem c4_witness :
    handleLinePending respErr [2] = ([], some (2, resolutionFor respErr)) ∧
    resolutionFor respErr = .failure "boom" := by
  have h := c4_line_resolution_amended respErr [2] 2 rfl
  refine ⟨h.1, ?_⟩
  have h2 := h.2.1 rfl
  have h3 := h.2.2.1 "boom" rfl rfl
  rw [h2, h3]

/-! ## Cache claims (C2) -/

/-- Freshly stored entries are found again under their key. -/
lemma cacheLookup_set_self (c : List (String × CacheEntry)) (k : String) (e : CacheEntry) :
    cacheLookup (cacheSet c k e) k = some e := by
  simp [cacheLookup, cacheSet]

/-- Round trips that fail leave the cache untouched (the catch paths call
the original reject, and only the wrapped resolve writes the cache). -/
lemma callViaCache_error_fst (cache : List (String × CacheEntry)) (m : String) (p : Json)
    (t : Nat) (msg : String) :
    (callViaCache cache m p t (.error msg)).1 = cache := by
  cases h : cacheLookup cache (cacheKey m p) with
  | none => simp [callViaCache, h, doRoundTrip]
  | some e =>
      by_cases ht : t - e.timestamp < CACHE_TTL
      · simp [callViaCache, h, ht]
      · simp [callViaCache, h, ht, doRoundTrip]

/-- C2: a call that misses the cache and succeeds with a truthy result
stores it under the method/params key; a second identical call whose age is
strictly below the 5-minute TTL returns the cached value with no child
round trip; at or beyond the TTL the entry is treated as absent and a new
round trip occurs; failed calls store nothing. -/
theorem c2_cache_ttl (cache : List (String × CacheEntry)) (m : String) (p : Json)
    (t1 t2 : Nat) (r : Json) (tr2 : Except String Json)
    (hmiss : cacheLookup cache (cacheKey m p) = none)
    (htruthy : r.truthy = true) :
    callViaCache cache m p t1 (.ok r)
      = (cacheSet cache (cacheKey m p) { data := r, timestamp := t1 },
         .roundTripSuccess r) ∧
    (t2 - t1 < CACHE_TTL →
      callViaCache (cacheSet cache (cacheKey m p) { data := r, timestamp := t1 }) m p t2 tr2
        = (cacheSet cache (cacheKey m p) { data := r, timestamp := t1 }, .cached r)) ∧
    (¬ t2 - t1 < CACHE_TTL →
      (callViaCache (cacheSet cache (cacheKey m p) { data := r, timestamp := t1 }) m p t2 tr2)
        = doRoundTrip (cacheSet cache (cacheKey m p) { data := r, timestamp := t1 })
            (cacheKey m p) t2 tr2) ∧
    (∀ msg, (callViaCache cache m p t2 (.error msg)).1 = cache) := by
  refine ⟨?_, ?_, ?_, fun msg => callViaCache_error_fst cache m p t2 msg⟩
  · simp [callViaCache, hmiss, doRoundTrip, htruthy]
  · intro hfresh
    simp [callViaCache, cacheLookup_set_self, hfresh]
  · intro hstale
    simp [callViaCache, cacheLookup_set_self, hstale]

/-- Witness for C2: a concrete pair of identical calls, the second 1 second
later, hits the cache; the same second call 5 minutes later round-trips. -/
theorem c2_witness :
    callViaCache [] "tools/list" (Json.obj []) 1000 (.ok (Json.str "tools"))
      = (cacheSet [] (cacheKey "tools/list" (Json.obj []))
           { data := Json.str "tools", timestamp := 1000 },
         .roundTripSuccess (Json.str "tools")) ∧
    callViaCache (cacheSet [] (cacheKey "tools/list" (Json.obj []))
        { data := Json.str "tools", timestamp := 1000 }) "tools/list" (Json.obj []) 2000
        (.error "MCP request timeout")
      = (cacheSet [] (cacheKey "tools/list" (Json.obj []))
           { data := Json.str "tools", timestamp := 1000 },
         .cached (Json.str "tools")) := by
  have h := c2_cache_ttl [] "tools/list" (Json.obj []) 1000 2000 (Json.str "tools")
    (.error "MCP request timeout") rfl rfl
  exact ⟨h.1, h.2.1 (by decide)⟩

/-! ## Exit-handler claim (C5) -/

/-- C5: when the child process exits, the exit handler rejects every entry
then in the pending map with the "MCP server process exited" error, empties
the map, sets both readiness flags to false and clears the process handle,
after which a subsequent spawn call starts a new process; the handler itself
performs no restart (it leaves no process tracked). -/
theorem c5_exit_handler (s : BridgeState) :
    (step s .procExit).1.pending = [] ∧
    (step s .procExit).2
      = s.pending.map (fun i => .resolved i (.failure "MCP server process exited")) ∧
    (step s .procExit).1.mcpReady = false ∧
    (step s .procExit).1.mcpInit = false ∧
    (step s .procExit).1.procAlive = false ∧
    (initMCPServer (step s .procExit).1).2 = true ∧
    (initMCPServer (step s .procExit).1).1.procAlive = true :=
  ⟨rfl, rfl, rfl, rfl, rfl, rfl, rfl⟩

/-! ## Pending-map invariants (C1, C6, C10) -/

/-- Well-formedness preserved by every step: pending keys are distinct and
strictly below the counter, as are the armed timer ids. -/
structure BridgeInv (s : BridgeState) : Prop where
  nodup : s.pending.Nodup
  pendingLt : ∀ i ∈ s.pending, i < s.counter
  timersLt : ∀ i ∈ s.timers, i < s.counter

/-- The load-time state is well-formed. -/
lemma initInv : BridgeInv initState :=
  ⟨List.nodup_nil, by simp [initState], by simp [initState]⟩

/-- A matched id is one of the pending keys. -/
lemma matchId_mem {idVal : Json} {pending : List Nat} {n : Nat}
    (h : matchId idVal pending = some n) : n ∈ pending := by
  cases idVal with
  | num m =>
      unfold matchId at h
      by_cases ht : (Json.num m).truthy = true
      · rw [if_pos ht] at h
        by_cases hc : 0 ≤ m ∧ m.toNat ∈ pending
        · simp [hc] at h
          exact h ▸ hc.2
        · simp [hc] at h
      · rw [if_neg ht] at h
        exact absurd h (by simp)
  | null => exact absurd h (by simp [matchId])
  | bool b => exact absurd h (by simp [matchId, Json.truthy])
  | str s => exact absurd h (by simp [matchId, Json.truthy])
  | arr es => exact absurd h (by simp [matchId, Json.truthy])
  | obj fs => exact absurd h (by simp [matchId, Json.truthy])

/-- Case analysis of a `line` step: either some pending id matched — the
entry and its timer are erased and exactly its resolution is emitted — or
nothing about the pending map changes and nothing is emitted. -/
lemma step_line_cases (s : BridgeState) (resp : Json) :
    (∃ n, n ∈ s.pending ∧
      (step s (.line resp)).1.pending = s.pending.erase n ∧
      (step s (.line resp)).1.timers = s.timers.erase n ∧
      (step s (.line resp)).1.counter = s.counter ∧
      (step s (.line resp)).2 = [.resolved n (resolutionFor resp)]) ∨
    ((step s (.line resp)).1.pending = s.pending ∧
      (step s (.line resp)).1.timers = s.timers ∧
      (step s (.line resp)).1.counter = s.counter ∧
      (step s (.line resp)).2 = []) := by
  by_cases hi : isInitResponse resp = true
  · cases hm : matchId (resp.getField "id") s.pending with
    | none =>
        right
        simp [step, handleLinePending, hi, hm]
    | some n =>
        left
        refine ⟨n, matchId_mem hm, ?_, ?_, ?_, ?_⟩ <;>
          simp [step, handleLinePending, hi, hm]
  · cases hm : matchId (resp.getField "id") s.pending with
    | none =>
        right
        simp [step, handleLinePending, hi, hm]
    | some n =>
        left
        refine ⟨n, matchId_mem hm, ?_, ?_, ?_, ?_⟩ <;>
          simp [step, handleLinePending, hi, hm]

/-- Every step preserves the invariant. -/
lemma step_inv {s : BridgeState} (hInv : BridgeInv s) (e : Event) :
    BridgeInv (step s e).1 := by
  have hcnotp : s.counter ∉ s.pending := fun h => lt_irrefl _ (hInv.pendingLt _ h)
  have hcnott : s.counter ∉ s.timers := fun h => lt_irrefl _ (hInv.timersLt _ h)
  cases e with
  | send =>
      refine ⟨?_, ?_, ?_⟩
      · simpa [step, List.nodup_append] using ⟨hInv.nodup, hcnotp⟩
      · intro i hi
        have h2 : i ∈ s.pending ∨ i = s.counter := by simpa [step] using hi
        have h3 : (step s .send).1.counter = s.counter + 1 := rfl
        rw [h3]
        rcases h2 with h | h
        · exact Nat.lt_succ_of_lt (hInv.pendingLt i h)
        · omega
      · intro i hi
        have h2 : i ∈ s.timers ∨ i = s.counter := by simpa [step] using hi
        have h3 : (step s .send).1.counter = s.counter + 1 := rfl
        rw [h3]
        rcases h2 with h | h
        · exact Nat.lt_succ_of_lt (hInv.timersLt i h)
        · omega
  | sendFail m =>
      refine ⟨?_, ?_, ?_⟩
      · rw [show (step s (.sendFail m)).1.pending = (s.pending ++ [s.counter]).erase s.counter
            from rfl, List.erase_append_right _ hcnotp]
        simpa using hInv.nodup
      · intro i hi
        rw [show (step s (.sendFail m)).1.pending = (s.pending ++ [s.counter]).erase s.counter
            from rfl, List.erase_append_right _ hcnotp] at hi
        simp at hi
        exact Nat.lt_succ_of_lt (hInv.pendingLt i hi)
      · intro i hi
        rw [show (step s (.sendFail m)).1.timers = (s.timers ++ [s.counter]).erase s.counter
            from rfl, List.erase_append_right _ hcnott] at hi
        simp at hi
        exact Nat.lt_succ_of_lt (hInv.timersLt i hi)
  | line resp =>
      rcases step_line_cases s resp with ⟨n, _, hp, ht, hc, _⟩ | ⟨hp, ht, hc, _⟩
      · refine ⟨?_, ?_, ?_⟩
        · rw [hp]
          exact hInv.nodup.erase n
        · intro i hi
          rw [hc]
          exact hInv.pendingLt i (List.mem_of_mem_erase (hp ▸ hi))
        · intro i hi
          rw [hc]
          exact hInv.timersLt i (List.mem_of_mem_erase (ht ▸ hi))
      · refine ⟨?_, ?_, ?_⟩
        · rw [hp]
          exact hInv.nodup
        · intro i hi
          rw [hc]
          exact hInv.pendingLt i (hp ▸ hi)
        · intro i hi
          rw [hc]
          exact hInv.timersLt i (ht ▸ hi)
  | timeoutFire id =>
      by_cases hmem : id ∈ s.pending
      · refine ⟨?_, ?_, ?_⟩
        · simpa [step, hmem] using hInv.nodup.erase id
        · intro i hi
          simp [step, hmem] at hi ⊢
          exact hInv.pendingLt i (List.mem_of_mem_erase hi)
        · intro i hi
          simp [step, hmem] at hi ⊢
          exact hInv.timersLt i (List.mem_of_mem_erase hi)
      · simpa [step, hmem] using hInv
  | procExit =>
      refine ⟨?_, ?_, ?_⟩
      · simp [step]
      · intro i hi
        simp [step] at hi
      · intro i hi
        simp [step] at hi
        exact hInv.timersLt i hi.1

/-! ## Resolution accounting -/

/-- Indicator of membership of `id` in a key list. -/
def memBit (l : List Nat) (id : Nat) : Nat := if id ∈ l then 1 else 0

/-- Counting distributes over concatenation of outcome lists. -/
lemma resCount_append (a b : List Outcome) (id : Nat) :
    resCount (a ++ b) id = resCount a id + resCount b id :=
  List.countP_append _ _ _

/-- Counting registrations distributes over concatenation. -/
lemma regCount_append (a b : List Outcome) (id : Nat) :
    regCount (a ++ b) id = regCount a id + regCount b id :=
  List.countP_append _ _ _

/-- One step keeps the per-id ledger balanced: resolutions delivered plus
still-pending occurrences equal registrations plus previously-pending
occurrences. -/
lemma step_ledger (s : BridgeState) (e : Event) (id : Nat) (hInv : BridgeInv s) :
    resCount (step s e).2 id + memBit (step s e).1.pending id
      = regCount (step s e).2 id + memBit s.pending id := by
  have hcnotp : s.counter ∉ s.pending := fun h => lt_irrefl _ (hInv.pendingLt _ h)
  cases e with
  | send =>
      have hp : (step s .send).1.pending = s.pending ++ [s.counter] := rfl
      have houts : (step s .send).2 = [.registered s.counter] := rfl
      rw [hp, houts]
      by_cases hid : id = s.counter
      · subst hid
        simp [resCount, regCount, memBit, hcnotp]
      · simp [resCount, regCount, memBit, hid, Ne.symm hid, List.mem_append]
  | sendFail m =>
      have hp : (step s (.sendFail m)).1.pending
          = (s.pending ++ [s.counter]).erase s.counter := rfl
      have houts : (step s (.sendFail m)).2
          = [.registered s.counter,
             .resolved s.counter (.failure ("Failed to send MCP request: " ++ m))] := rfl
      rw [hp, houts, List.erase_append_right _ hcnotp]
      by_cases hid : id = s.counter
      · subst hid
        simp [resCount, regCount, memBit, hcnotp]
      · simp [resCount, regCount, memBit, hid, Ne.symm hid]
  | line resp =>
      rcases step_line_cases s resp with ⟨n, hmem, hp, _, _, houts⟩ | ⟨hp, _, _, houts⟩
      · rw [hp, houts]
        by_cases hid : id = n
        · subst hid
          simp [resCount, regCount, memBit, hInv.nodup.not_mem_erase, hmem]
        · simp [resCount, regCount, memBit, Ne.symm hid, List.mem_erase_of_ne hid]
      · rw [hp, houts]
        simp [resCount, regCount]
  | timeoutFire t =>
      by_cases hmem : t ∈ s.pending
      · have hp : (step s (.timeoutFire t)).1.pending = s.pending.erase t := by
          simp [step, hmem]
        have houts : (step s (.timeoutFire t)).2
            = [.resolved t (.failure "MCP request timeout")] := by
          simp [step, hmem]
        rw [hp, houts]
        by_cases hid : id = t
        · subst hid
          simp [resCount, regCount, memBit, hInv.nodup.not_mem_erase, hmem]
        · simp [resCount, regCount, memBit, Ne.symm hid, List.mem_erase_of_ne hid]
      · have hp : step s (.timeoutFire t) = (s, []) := by simp [step, hmem]
        rw [hp]
        simp [resCount, regCount]
  | procExit =>
      have hp : (step s .procExit).1.pending = [] := rfl
      have houts : (step s .procExit).2
          = s.pending.map (fun i => .resolved i (.failure "MCP server process exited")) := rfl
      rw [hp, houts]
      have hres : resCount
          (s.pending.map (fun i => Outcome.resolved i (.failure "MCP server process exited")))
          id = s.pending.count id := by
        rw [resCount, List.countP_map]
        rfl
      have hreg : regCount
          (s.pending.map (fun i => Outcome.resolved i (.failure "MCP server process exited")))
          id = 0 := by
        rw [regCount, List.countP_map]
        simp [Function.comp]
      rw [hres, hreg]
      by_cases hmem : id ∈ s.pending
      · rw [List.count_eq_one_of_mem hInv.nodup hmem]
        simp [memBit, hmem]
      · rw [List.count_eq_zero_of_not_mem hmem]
        simp [memBit, hmem]

/-- Runs decompose over concatenated event lists. -/
lemma run_append (s : BridgeState) (es1 es2 : List Event) :
    run s (es1 ++ es2)
      = ((run (run s es1).1 es2).1, (run s es1).2 ++ (run (run s es1).1 es2).2) := by
  induction es1 generalizing s with
  | nil => simp [run]
  | cons e es ih =>
      simp only [List.cons_append, run, List.append_eq]
      rw [ih (step s e).1]
      simp [List.append_assoc]

/-- The invariant holds along every run. -/
lemma run_inv {s : BridgeState} (hInv : BridgeInv s) (es : List Event) :
    BridgeInv (run s es).1 := by
  induction es generalizing s with
  | nil => exact hInv
  | cons e es ih => exact ih (step_inv hInv e)

/-- The id counter never decreases over a step. -/
lemma step_counter_le (s : BridgeState) (e : Event) : s.counter ≤ (step s e).1.counter := by
  cases e with
  | send => exact Nat.le_succ _
  | sendFail m => exact Nat.le_succ _
  | line resp =>
      rcases step_line_cases s resp with ⟨n, _, _, _, hc, _⟩ | ⟨_, _, hc, _⟩ <;> simp [hc]
  | timeoutFire t => by_cases h : t ∈ s.pending <;> simp [step, h]
  | procExit => exact le_refl _

/-- The id counter never decreases over a run. -/
lemma run_counter_mono (s : BridgeState) (es : List Event) :
    s.counter ≤ (run s es).1.counter := by
  induction es generalizing s with
  | nil => exact le_refl _
  | cons e es ih => exact le_trans (step_counter_le s e) (ih (step s e).1)

/-- A step registers nothing, or registers exactly the current counter value
once and increments the counter. -/
lemma step_reg_cases (s : BridgeState) (e : Event) (id : Nat) :
    regCount (step s e).2 id = 0 ∨
    (id = s.counter ∧ regCount (step s e).2 id = 1 ∧
      (step s e).1.counter = s.counter + 1) := by
  cases e with
  | send =>
      by_cases hid : id = s.counter
      · right
        subst hid
        exact ⟨rfl, by simp [step, regCount], rfl⟩
      · left
        simp [step, regCount, Ne.symm hid]
  | sendFail m =>
      by_cases hid : id = s.counter
      · right
        subst hid
        exact ⟨rfl, by simp [step, regCount], rfl⟩
      · left
        simp [step, regCount, Ne.symm hid]
  | line resp =>
      left
      rcases step_line_cases s resp with ⟨n, _, _, _, _, ho⟩ | ⟨_, _, _, ho⟩ <;>
        simp [ho, regCount]
  | timeoutFire t =>
      left
      by_cases hm : t ∈ s.pending <;> simp [step, hm, regCount]
  | procExit =>
      left
      rw [show (step s .procExit).2
          = s.pending.map (fun i => Outcome.resolved i (.failure "MCP server process exited"))
          from rfl, regCount, List.countP_map]
      simp [Function.comp]

/-- A step registers nothing under any id other than the current counter. -/
lemma step_regCount_ne (s : BridgeState) (e : Event) (id : Nat) (h : id ≠ s.counter) :
    regCount (step s e).2 id = 0 := by
  rcases step_reg_cases s e id with h0 | ⟨hid, _, _⟩
  · exact h0
  · exact absurd hid h

/-- Ids below the counter are never registered again. -/
lemma run_regCount_lt (s : BridgeState) (es : List Event) (id : Nat) (h : id < s.counter) :
    regCount (run s es).2 id = 0 := by
  induction es generalizing s with
  | nil => rfl
  | cons e es ih =>
      have hout : (run s (e :: es)).2 = (step s e).2 ++ (run (step s e).1 es).2 := rfl
      rw [hout, regCount_append, step_regCount_ne s e id (by omega),
        ih (step s e).1 (lt_of_lt_of_le h (step_counter_le s e))]

/-- Ids at or above the final counter were never registered. -/
lemma run_regCount_ge (s : BridgeState) (es : List Event) (id : Nat)
    (h : (run s es).1.counter ≤ id) : regCount (run s es).2 id = 0 := by
  induction es generalizing s with
  | nil => rfl
  | cons e es ih =>
      have hout : (run s (e :: es)).2 = (step s e).2 ++ (run (step s e).1 es).2 := rfl
      have h2 : (run (step s e).1 es).1.counter ≤ id := h
      rcases step_reg_cases s e id with h0 | ⟨hid, _, hc⟩
      · rw [hout, regCount_append, h0, ih _ h2]
      · exfalso
        have h3 := run_counter_mono (step s e).1 es
        rw [hc] at h3
        omega

/-- The per-id ledger balances along every run. -/
lemma run_ledger (s : BridgeState) (es : List Event) (id : Nat) (hInv : BridgeInv s) :
    resCount (run s es).2 id + memBit (run s es).1.pending id
      = regCount (run s es).2 id + memBit s.pending id := by
  induction es generalizing s with
  | nil => rfl
  | cons e es ih =>
      have h1 := step_ledger s e id hInv
      have h2 := ih (step s e).1 (step_inv hInv e)
      have hout : (run s (e :: es)).2 = (step s e).2 ++ (run (step s e).1 es).2 := rfl
      have hst : (run s (e :: es)).1 = (run (step s e).1 es).1 := rfl
      rw [hout, hst, resCount_append, regCount_append]
      omega

/-- Each id is registered at most once along a run. -/
lemma run_regCount_le_one (s : BridgeState) (es : List Event) (id : Nat) :
    regCount (run s es).2 id ≤ 1 := by
  induction es generalizing s with
  | nil => exact Nat.zero_le 1
  | cons e es ih =>
      have hout : (run s (e :: es)).2 = (step s e).2 ++ (run (step s e).1 es).2 := rfl
      rw [hout, regCount_append]
      rcases step_reg_cases s e id with h0 | ⟨hid, h1, hc⟩
      · rw [h0]
        simpa using ih (step s e).1
      · rw [h1]
        have h2 : regCount (run (step s e).1 es).2 id = 0 := by
          apply run_regCount_lt
          rw [hc, hid]
          exact Nat.lt_succ_self _
        rw [h2]

/-- An id below the counter that is not pending never becomes pending again. -/
lemma step_not_mem_pending {s : BridgeState} {id : Nat} (e : Event)
    (hlt : id < s.counter) (hnm : id ∉ s.pending) :
    id ∉ (step s e).1.pending := by
  cases e with
  | send =>
      intro hmem
      have h2 : id ∈ s.pending ∨ id = s.counter := by simpa [step] using hmem
      rcases h2 with h | h
      · exact hnm h
      · omega
  | sendFail m =>
      intro hmem
      have hp : (step s (.sendFail m)).1.pending
          = (s.pending ++ [s.counter]).erase s.counter := rfl
      rw [hp] at hmem
      rcases List.mem_append.mp (List.mem_of_mem_erase hmem) with h | h
      · exact hnm h
      · simp at h
        omega
  | line resp =>
      rcases step_line_cases s resp with ⟨n, _, hps, _, _, _⟩ | ⟨hps, _, _, _⟩
      · rw [hps]
        intro hmem
        exact hnm (List.mem_of_mem_erase hmem)
      · rw [hps]
        exact hnm
  | timeoutFire t =>
      by_cases hm : t ∈ s.pending
      · intro hmem
        have h2 : id ∈ s.pending.erase t := by simpa [step, hm] using hmem
        exact hnm (List.mem_of_mem_erase h2)
      · intro hmem
        exact hnm (by simpa [step, hm] using hmem)
  | procExit =>
      intro hmem
      simp [step] at hmem

/-- Once resolved (gone from the map, id below the counter), an id stays
out of the pending map for the rest of the run. -/
lemma run_not_mem_pending {s : BridgeState} {id : Nat} (es : List Event)
    (hlt : id < s.counter) (hnm : id ∉ s.pending) :
    id ∉ (run s es).1.pending := by
  induction es generalizing s with
  | nil => exact hnm
  | cons e es ih =>
      exact ih (lt_of_lt_of_le hlt (step_counter_le s e)) (step_not_mem_pending e hlt hnm)

/-- After its timeout callback runs, an id is out of the pending map,
whether the callback found the entry (and rejected) or found it already
removed (and did nothing). -/
lemma timeoutFire_not_mem {s : BridgeState} (id : Nat) (hnd : s.pending.Nodup) :
    id ∉ (step s (.timeoutFire id)).1.pending := by
  by_cases h : id ∈ s.pending
  · have hp : (step s (.timeoutFire id)).1.pending = s.pending.erase id := by
      simp [step, h]
    rw [hp]
    exact hnd.not_mem_erase
  · have hp : (step s (.timeoutFire id)).1.pending = s.pending := by
      simp [step, h]
    rw [hp]
    exact h

/-! ## Main correlator claims (C1, C6, C10) -/

/-- C1: over any run from load time, at most one resolution is ever
delivered per id — when the 10-second timeout and a matching response line
race, whichever fires first removes the pending entry and the later one
finds no entry and is a no-op — and for a call that registers a pending
entry, once its timeout event eventually occurs in the rest of the run (the
platform fires every armed timer; the event is a no-op when the entry is
already gone), exactly one resolution (success, error-response failure,
timeout failure, process-exit failure or send failure) is delivered for its
id. -/
theorem c1_exactly_one_resolution (pre post : List Event)
    (hfire : Event.timeoutFire (run initState pre).1.counter ∈ post) :
    (∀ id, resCount (run initState (pre ++ Event.send :: post)).2 id ≤ 1) ∧
    resCount (run initState (pre ++ Event.send :: post)).2 (run initState pre).1.counter
      = 1 := by
  have hInv0 : BridgeInv (run initState pre).1 := run_inv initInv pre
  have hle : ∀ id, resCount (run initState (pre ++ Event.send :: post)).2 id ≤ 1 := by
    intro id
    have hled := run_ledger initState (pre ++ Event.send :: post) id initInv
    have hreg := run_regCount_le_one initState (pre ++ Event.send :: post) id
    have h0 : memBit initState.pending id = 0 := rfl
    omega
  refine ⟨hle, ?_⟩
  rcases List.append_of_mem hfire with ⟨a, b, hab⟩
  have hsplit := run_append initState pre (Event.send :: post)
  have hInv1 : BridgeInv (step (run initState pre).1 .send).1 := step_inv hInv0 .send
  have hInv2 : BridgeInv (run (step (run initState pre).1 .send).1 a).1 := run_inv hInv1 a
  have hlt1 : (run initState pre).1.counter < (step (run initState pre).1 .send).1.counter :=
    Nat.lt_succ_self _
  have hlt2 : (run initState pre).1.counter
      < (run (step (run initState pre).1 .send).1 a).1.counter :=
    lt_of_lt_of_le hlt1 (run_counter_mono _ a)
  have hnm3 : (run initState pre).1.counter
      ∉ (step (run (step (run initState pre).1 .send).1 a).1
          (.timeoutFire (run initState pre).1.counter)).1.pending :=
    timeoutFire_not_mem _ hInv2.nodup
  have hlt3 : (run initState pre).1.counter
      < (step (run (step (run initState pre).1 .send).1 a).1
          (.timeoutFire (run initState pre).1.counter)).1.counter :=
    lt_of_lt_of_le hlt2 (step_counter_le _ _)
  have hnmfin : (run initState pre).1.counter
      ∉ (run (step (run (step (run initState pre).1 .send).1 a).1
            (.timeoutFire (run initState pre).1.counter)).1 b).1.pending :=
    run_not_mem_pending b hlt3 hnm3
  have hchain : (run initState (pre ++ Event.send :: post)).1
      = (run (step (run (step (run initState pre).1 .send).1 a).1
            (.timeoutFire (run initState pre).1.counter)).1 b).1 := by
    rw [hsplit]
    show (run (step (run initState pre).1 .send).1 post).1 = _
    rw [hab, run_append]
    rfl
  have hmemfin : memBit (run initState (pre ++ Event.send :: post)).1.pending
      (run initState pre).1.counter = 0 := by
    rw [hchain]
    simp [memBit, hnmfin]
  have hregtot : regCount (run initState (pre ++ Event.send :: post)).2
      (run initState pre).1.counter = 1 := by
    have h2 : (run initState (pre ++ Event.send :: post)).2
        = (run initState pre).2
          ++ ((step (run initState pre).1 .send).2
              ++ (run (step (run initState pre).1 .send).1 post).2) := by
      rw [hsplit]
      rfl
    rw [h2, regCount_append, regCount_append,
      run_regCount_ge initState pre _ (le_refl _),
      run_regCount_lt _ post _ hlt1]
    simp [step, regCount]
  have hled := run_ledger initState (pre ++ Event.send :: post)
    (run initState pre).1.counter initInv
  have h0 : memBit initState.pending (run initState pre).1.counter = 0 := rfl
  omega

/-- Witness for C1: immediately after load, one send followed by its timeout
firing delivers exactly one resolution for id 1. -/
theorem c1_witness :
    Event.timeoutFire (run initState []).1.counter ∈ [Event.timeoutFire 1] ∧
    ((∀ id, resCount (run initState ([] ++ Event.send :: [Event.timeoutFire 1])).2 id ≤ 1) ∧
      resCount (run initState ([] ++ Event.send :: [Event.timeoutFire 1])).2
        (run initState []).1.counter = 1) :=
  ⟨List.mem_singleton.mpr rfl,
   c1_exactly_one_resolution [] [Event.timeoutFire 1] (List.mem_singleton.mpr rfl)⟩

/-- Registered ids split over concatenated outcome lists. -/
lemma registeredIds_append (a b : List Outcome) :
    registeredIds (a ++ b) = registeredIds a ++ registeredIds b :=
  List.filterMap_append _ _ _

/-- A step either registers exactly the current counter (and increments it),
or registers nothing (and leaves the counter unchanged). -/
lemma step_registeredIds (s : BridgeState) (e : Event) :
    (registeredIds (step s e).2 = [s.counter] ∧ (step s e).1.counter = s.counter + 1) ∨
    (registeredIds (step s e).2 = [] ∧ (step s e).1.counter = s.counter) := by
  cases e with
  | send => exact Or.inl ⟨rfl, rfl⟩
  | sendFail m => exact Or.inl ⟨rfl, rfl⟩
  | line resp =>
      right
      rcases step_line_cases s resp with ⟨n, _, _, _, hc, ho⟩ | ⟨_, _, hc, ho⟩ <;>
        exact ⟨by simp [ho, registeredIds], hc⟩
  | timeoutFire t =>
      right
      by_cases h : t ∈ s.pending <;> simp [step, h, registeredIds]
  | procExit =>
      right
      refine ⟨?_, rfl⟩
      rw [show (step s .procExit).2
          = s.pending.map (fun i => Outcome.resolved i (.failure "MCP server process exited"))
          from rfl, registeredIds, List.filterMap_map]
      simp [Function.comp]

/-- Along any run, the registered ids are strictly increasing and at least
the starting counter. -/
lemma run_registeredIds_spec (s : BridgeState) (es : List Event) :
    List.Chain' (fun x y => x < y) (registeredIds (run s es).2) ∧
    (∀ i ∈ registeredIds (run s es).2, s.counter ≤ i) := by
  induction es generalizing s with
  | nil => exact ⟨List.chain'_nil, by simp [run, registeredIds]⟩
  | cons e es ih =>
      have hout : (run s (e :: es)).2 = (step s e).2 ++ (run (step s e).1 es).2 := rfl
      rw [hout, registeredIds_append]
      have ihs := ih (step s e).1
      rcases step_registeredIds s e with ⟨h1, h2⟩ | ⟨h1, h2⟩
      · rw [h1, List.singleton_append]
        constructor
        · refine List.chain'_cons'.mpr ⟨?_, ihs.1⟩
          intro y hy
          have hmem := List.mem_of_mem_head? hy
          have hge := ihs.2 y hmem
          rw [h2] at hge
          omega
        · intro i hi
          rcases List.mem_cons.mp hi with h | h
          · omega
          · have hge := ihs.2 i h
            rw [h2] at hge
            omega
      · rw [h1, List.nil_append]
        refine ⟨ihs.1, fun i hi => ?_⟩
        have hge := ihs.2 i hi
        rw [h2] at hge
        exact hge

/-- C6: along any run from load time, ids are allocated by incrementing the
process-lifetime counter: the registered ids are strictly increasing (never
reused), the pending map's keys are distinct at every point, and the next
send registers the counter — a key not yet present — so registration never
overwrites a different call's entry. -/
theorem c6_ids_fresh_and_increasing (es : List Event) :
    (run initState es).1.pending.Nodup ∧
    List.Chain' (fun x y => x < y) (registeredIds (run initState es).2) ∧
    (run initState es).1.counter ∉ (run initState es).1.pending ∧
    (step (run initState es).1 .send).1.pending
      = (run initState es).1.pending ++ [(run initState es).1.counter] := by
  have hInv := run_inv initInv es
  exact ⟨hInv.nodup, (run_registeredIds_spec initState es).1,
    fun h => lt_irrefl _ (hInv.pendingLt _ h), rfl⟩

/-- Sample well-formed state with two in-flight requests. -/
def sampleState : BridgeState :=
  { pending := [1, 2], counter := 3, timers := [1, 2], procAlive := true,
    mcpReady := true, mcpInit := true }

/-- C10: when `stdin.write` throws, the catch block fails the call
atomically: the just-registered entry is removed again (the pending map is
exactly as before the call), the armed timeout is cleared (no timer remains
for the id), exactly one rejection carrying the
"Failed to send MCP request: ..." message is delivered, and the cache is
untouched (a failed call stores nothing). -/
theorem c10_send_failure_atomic (s : BridgeState) (m : String) (hInv : BridgeInv s) :
    (step s (.sendFail m)).1.pending = s.pending ∧
    (step s (.sendFail m)).1.timers = s.timers ∧
    s.counter ∉ (step s (.sendFail m)).1.timers ∧
    (step s (.sendFail m)).2
      = [.registered s.counter,
         .resolved s.counter (.failure ("Failed to send MCP request: " ++ m))] ∧
    resCount (step s (.sendFail m)).2 s.counter = 1 ∧
    (∀ cache meth p t msg,
      (callViaCache cache meth p t (.error msg)).1 = cache) := by
  have hcnotp : s.counter ∉ s.pending := fun h => lt_irrefl _ (hInv.pendingLt _ h)
  have hcnott : s.counter ∉ s.timers := fun h => lt_irrefl _ (hInv.timersLt _ h)
  have hp2 : (step s (.sendFail m)).1.pending = s.pending := by
    rw [show (step s (.sendFail m)).1.pending
        = (s.pending ++ [s.counter]).erase s.counter from rfl,
      List.erase_append_right _ hcnotp]
    simp
  have ht2 : (step s (.sendFail m)).1.timers = s.timers := by
    rw [show (step s (.sendFail m)).1.timers
        = (s.timers ++ [s.counter]).erase s.counter from rfl,
      List.erase_append_right _ hcnott]
    simp
  refine ⟨hp2, ht2, ?_, rfl, by simp [step, resCount],
    fun cache meth p t msg => callViaCache_error_fst cache meth p t msg⟩
  rw [ht2]
  exact hcnott

/-- Witness for C10 on a concrete well-formed state. -/
theorem c10_witness :
    (step sampleState (.sendFail "EPIPE")).1.pending = sampleState.pending ∧
    (step sampleState (.sendFail "EPIPE")).1.timers = sampleState.timers ∧
    sampleState.counter ∉ (step sampleState (.sendFail "EPIPE")).1.timers ∧
    (step sampleState (.sendFail "EPIPE")).2
      = [.registered sampleState.counter,
         .resolved sampleState.counter
           (.failure ("Failed to send MCP request: " ++ "EPIPE"))] ∧
    resCount (step sampleState (.sendFail "EPIPE")).2 sampleState.counter = 1 ∧
    (∀ cache meth p t msg,
      (callViaCache cache meth p t (.error msg)).1 = cache) :=
  c10_send_failure_atomic sampleState "EPIPE" ⟨by decide, by decide, by decide⟩

/-- Every success delivered by the line handler carries a truthy value:
`response.result || response` falls back to the whole payload, and a payload
whose id matched is an object, hence truthy. This discharges the truthiness
hypothesis of the cache theorem for results produced by the correlator. -/
lemma resolution_success_truthy (resp : Json) (pending : List Nat) (n : Nat) (v : Json)
    (hmatch : matchId (resp.getField "id") pending = some n)
    (hres : resolutionFor resp = .success v) : v.truthy = true := by
  have hobj : resp.truthy = true := by
    cases resp with
    | obj fs => rfl
    | null => exact absurd hmatch (by simp [Json.getField, matchId, Json.truthy])
    | bool b => exact absurd hmatch (by simp [Json.getField, matchId, Json.truthy])
    | num m => exact absurd hmatch (by simp [Json.getField, matchId, Json.truthy])
    | str t => exact absurd hmatch (by simp [Json.getField, matchId, Json.truthy])
    | arr es => exact absurd hmatch (by simp [Json.getField, matchId, Json.truthy])
  unfold resolutionFor at hres
  by_cases he : (resp.getField "error").truthy = true
  · rw [if_pos he] at hres
    exact absurd hres (by simp)
  · rw [if_neg he] at hres
    by_cases hr : (resp.getField "result").truthy = true
    · rw [if_pos hr] at hres
      injection hres with h2
      rw [← h2]
      exact hr
    · rw [if_neg hr] at hres
      injection hres with h2
      rw [← h2]
      exact hobj
